import Mathlib

/-!
# stmta: the task store and its command dispatcher

A shallow embedding of `todo.go` (package `todo`) and `cmd/todo/main.go`.

* Go `string` values are Lean `String`s, Go `int` values are `Int`s (no arithmetic of the
  program can overflow: the only arithmetic is `index-1` on a positive index and a counter
  bounded by a slice length).
* Go `error` values are represented by their message (`err.Error()`), and a Go function
  returning `(T, error)` or `error` returns `Except String T` here.
* `time.Time` values are instants in nanoseconds counted from the zero time `time.Time{}`;
  `time.Now()` is an explicit argument `now` of the operations that read the clock.
* The MongoDB collection is the external collaborator of the program.  It is represented by
  the list of its BSON documents in natural (insertion) order: `InsertOne` appends, `Find` with
  the empty filter lists every document, `UpdateOne` and `DeleteOne` act on the first document
  that matches the filter.  A document keeps a time as a BSON datetime, a number of whole
  milliseconds: a `time.Time` written to the store is cut to whole milliseconds, and this is
  what a listing reads back.  Every driver call may fail; whether it does is decided by the
  environment, given to each operation as a `Faults` record.
* Standard input is a reader over a fixed content that hands the content out in pieces of any
  size.  `bufio.Scanner` is represented by the loop of its method `Scan` with the split
  function `ScanLines` and the default buffer, which grows from 4096 to at most 65536 bytes.
* `main` returns what a run leaves behind: the exit status, the lines written to standard
  output and standard error, the store methods it called and the collection.
-/

set_option autoImplicit false

namespace Stmta

/-! ## Data model -/

/-- A `time.Time` instant: nanoseconds counted from the zero time. -/
abbrev Time := Int

/-- The zero time `time.Time{}`. -/
def zeroTime : Time := 0

/-- A single todo item (`type item struct`). -/
structure item where
  Task : String
  Done : Bool
  CreatedAt : Time
  CompletedAt : Time
deriving DecidableEq, Repr

/-- Outcome chosen by the environment for each kind of driver call made during one operation:
`none` when the call succeeds, `some msg` when it fails with the error `msg`. -/
structure Faults where
  connect : Option String
  ping : Option String
  insertOne : Option String
  find : Option String
  cursorAll : Option String
  updateOne : Option String
  deleteOne : Option String
deriving DecidableEq, Repr

/-- The environment in which no driver call fails. -/
def noFaults : Faults :=
  { connect := none, ping := none, insertOne := none, find := none, cursorAll := none,
    updateOne := none, deleteOne := none }

/-! ## The document collection (external collaborator) -/

/-- A BSON datetime (`primitive.DateTime`): a number of whole milliseconds.  The driver counts
them from the Unix epoch, which lies a whole number of milliseconds after the zero time; here
they are counted from the zero time, like `Time`. -/
abbrev DateTime := Int

/-- `primitive.NewDateTimeFromTime(t)`, the encoding of a `time.Time` as a BSON datetime: the
whole milliseconds of the instant; what is left of a millisecond is cut off. -/
def NewDateTimeFromTime (t : Time) : DateTime := t / 1000000

/-- `DateTime.Time()`, the decoding of a BSON datetime as a `time.Time`. -/
def DateTime.toTime (d : DateTime) : Time := d * 1000000

/-- A document of the collection, with the fields named by the `bson` tags of `item`. -/
structure document where
  task : String
  done : Bool
  created_at : DateTime
  completed_at : DateTime
deriving DecidableEq, Repr

/-- The BSON encoding of an `item`. -/
def marshal (i : item) : document :=
  { task := i.Task, done := i.Done, created_at := NewDateTimeFromTime i.CreatedAt,
    completed_at := NewDateTimeFromTime i.CompletedAt }

/-- The decoding of a document into an `item`. -/
def unmarshal (d : document) : item :=
  { Task := d.task, Done := d.done, CreatedAt := DateTime.toTime d.created_at,
    CompletedAt := DateTime.toTime d.completed_at }

/-- A `mongo.Collection`: its documents, in natural order. -/
structure Collection where
  docs : List document
deriving DecidableEq, Repr

/-- A `mongo.Cursor` over the documents selected by a query. -/
structure Cursor where
  pending : List document
deriving DecidableEq, Repr

/-- The update `$set: (done, completed_at)` applied to the first document whose `task` field
equals `task`; the other documents keep their content and place. -/
def setFirst (task : String) (done : Bool) (completedAt : DateTime) :
    List document → List document
  | [] => []
  | d :: ds =>
    if d.task = task then { d with done := done, completed_at := completedAt } :: ds
    else d :: setFirst task done completedAt ds

/-- Removal of the first document whose `task` field equals `task`. -/
def removeFirst (task : String) : List document → List document
  | [] => []
  | d :: ds => if d.task = task then ds else d :: removeFirst task ds

/-- The driver call `collection.InsertOne(ctx, doc)`: the item is encoded and stored. -/
def Collection.InsertOne (c : Collection) (fault : Option String) (doc : item) :
    Except String Collection :=
  match fault with
  | some err => .error err
  | none => .ok { docs := c.docs ++ [marshal doc] }

/-- The driver call `collection.Find(ctx, bson.M{})`: the empty filter selects everything. -/
def Collection.Find (c : Collection) (fault : Option String) : Except String Cursor :=
  match fault with
  | some err => .error err
  | none => .ok { pending := c.docs }

/-- The driver call `cursor.All(ctx, &todos)`: every document is decoded into an `item`. -/
def Cursor.All (cur : Cursor) (fault : Option String) : Except String (List item) :=
  match fault with
  | some err => .error err
  | none => .ok (cur.pending.map unmarshal)

/-- The driver call `collection.UpdateOne(ctx, bson.M{"task": task}, $set ...)`: the time of
the update document is encoded as a BSON datetime.  A filter that matches no document is not
an error. -/
def Collection.UpdateOne (c : Collection) (fault : Option String) (task : String)
    (done : Bool) (completedAt : Time) : Except String Collection :=
  match fault with
  | some err => .error err
  | none => .ok { docs := setFirst task done (NewDateTimeFromTime completedAt) c.docs }

/-- The driver call `collection.DeleteOne(ctx, bson.M{"task": task})`. -/
def Collection.DeleteOne (c : Collection) (fault : Option String) (task : String) :
    Except String Collection :=
  match fault with
  | some err => .error err
  | none => .ok { docs := removeFirst task c.docs }

/-! ## The task store (`todo.go`) -/

/-- The store handle (`type Todos struct`). -/
structure Todos where
  collection : Collection
deriving DecidableEq, Repr

/-- `func (t *Todos) ConnectToDB() error`: `db` is the content of the collection
`todoApp.todos` on the server. -/
def ConnectToDB (db : Collection) (env : Faults) : Except String Todos :=
  match env.connect with
  | some err => .error ("failed to connect to MongoDB: " ++ err)
  | none =>
    match env.ping with
    | some err => .error ("failed to ping MongoDB: " ++ err)
    | none => .ok { collection := db }

/-- `func (t *Todos) GetAll() ([]item, error)`. -/
def Todos.GetAll (t : Todos) (env : Faults) : Except String (List item) :=
  match t.collection.Find env.find with
  | .error err => .error ("failed to retrieve tasks: " ++ err)
  | .ok cursor =>
    match cursor.All env.cursorAll with
    | .error err => .error ("failed to decode tasks: " ++ err)
    | .ok todos => .ok todos

/-- `func (t *Todos) Add(task string) error`. -/
def Todos.Add (t : Todos) (env : Faults) (now : Time) (task : String) : Except String Todos :=
  let todo : item := { Task := task, Done := false, CreatedAt := now, CompletedAt := zeroTime }
  match t.collection.InsertOne env.insertOne todo with
  | .error err => .error ("failed to add task: " ++ err)
  | .ok c => .ok { collection := c }

/-- `func (t *Todos) Complete(index int) error`. -/
def Todos.Complete (t : Todos) (env : Faults) (now : Time) (index : Int) :
    Except String Todos :=
  match t.GetAll env with
  | .error err => .error err
  | .ok todos =>
    if h : index ≤ 0 ∨ index > todos.length then .error "invalid index"
    else
      let filter := (todos.get ⟨(index - 1).toNat, by omega⟩).Task
      match t.collection.UpdateOne env.updateOne filter true now with
      | .error err => .error ("failed to complete task: " ++ err)
      | .ok c => .ok { collection := c }

/-- `func (t *Todos) Delete(index int) error`. -/
def Todos.Delete (t : Todos) (env : Faults) (index : Int) : Except String Todos :=
  match t.GetAll env with
  | .error err => .error err
  | .ok todos =>
    if h : index ≤ 0 ∨ index > todos.length then .error "invalid index"
    else
      let filter := (todos.get ⟨(index - 1).toNat, by omega⟩).Task
      match t.collection.DeleteOne env.deleteOne filter with
      | .error err => .error ("failed to delete task: " ++ err)
      | .ok c => .ok { collection := c }

/-- `func (t *Todos) CountPending() (int, error)`. -/
def Todos.CountPending (t : Todos) (env : Faults) : Except String Int :=
  match t.GetAll env with
  | .error err => .error err
  | .ok todos =>
    .ok (todos.foldl (fun total item => if !item.Done then total + 1 else total) 0)

/-- `func (t *Todos) Print() error`, as far as the store is concerned: the listing and the
pending count are fetched, and the first failure is returned.  The rendering of the table on
the terminal is outside the model. -/
def Todos.Print (t : Todos) (env : Faults) : Except String Unit :=
  match t.GetAll env with
  | .error err => .error err
  | .ok _ =>
    match t.CountPending env with
    | .error err => .error err
    | .ok _ => .ok ()

/-! ## Standard library used by `getInput` -/

/-- `strings.Join(elems, sep)`: the first element, then `sep` and the next element for every
further element. -/
def strings.Join (elems : List String) (sep : String) : String :=
  match elems with
  | [] => ""
  | [e] => e
  | e :: rest => rest.foldl (fun b s => b ++ sep ++ s) e

/-- An `io.Reader` such as `os.Stdin` over a fixed content, one `Char` per byte.  `rest` is the
part of the content not read yet.  A file, pipe or terminal hands its content out in pieces:
`ready` tells, for each coming call of `Read`, how many bytes beyond the first are available
to it; once `ready` is used up every call fills the buffer it is given.  Reads do not fail
otherwise than by `io.EOF` at the end of the content. -/
structure Reader where
  rest : List Char
  ready : List Nat
deriving DecidableEq, Repr

/-- The error `io.EOF`. -/
def io.EOF : String := "EOF"

/-- The error `bufio.ErrTooLong`. -/
def bufio.ErrTooLong : String := "bufio.Scanner: token too long"

/-- `r.Read(p)` for a buffer `p` with room for `space` bytes: the bytes read, the error, and
the reader afterwards.  At the end of the content the call returns `0, io.EOF`; before it, the
call returns at least one byte and at most what is available and what the buffer takes. -/
def Reader.Read (r : Reader) (space : Nat) : List Char × Option String × Reader :=
  if r.rest.length = 0 then ([], some io.EOF, r)
  else
    let n := min space (r.ready.headD r.rest.length + 1)
    (r.rest.take n, none, { rest := r.rest.drop n, ready := r.ready.tail })

/-- `bufio.MaxScanTokenSize`. -/
def bufio.MaxScanTokenSize : Nat := 64 * 1024

/-- The initial buffer size `startBufSize` of a `bufio.Scanner`. -/
def bufio.startBufSize : Nat := 4096

/-- `dropCR` of package `bufio`: drops a terminal `\r` from the data. -/
def bufio.dropCR (data : List Char) : List Char :=
  if data.length > 0 ∧ data.getLast? = some '\r' then data.take (data.length - 1) else data

/-- `bufio.ScanLines`, the default split function: the number of bytes to advance and the
token (`none` for a nil token).  It never returns an error. -/
def bufio.ScanLines (data : List Char) (atEOF : Bool) : Nat × Option (List Char) :=
  if atEOF = true ∧ data.length = 0 then (0, none)
  else
    let i := data.indexOf '\n'
    if i < data.length then (i + 1, some (bufio.dropCR (data.take i)))
    else if atEOF = true then (data.length, some (bufio.dropCR data))
    else (0, none)

/-- A `bufio.Scanner`.  `data` is the window `buf[start:end]` of the buffer and `bufLen` is
`len(buf)`; `start` is `0` until a token is returned. -/
structure Scanner where
  r : Reader
  maxTokenSize : Nat
  bufLen : Nat
  data : List Char
  token : Option (List Char)
  err : Option String
deriving DecidableEq, Repr

/-- `bufio.NewScanner(r)`. -/
def bufio.NewScanner (r : Reader) : Scanner :=
  { r := r, maxTokenSize := bufio.MaxScanTokenSize, bufLen := 0, data := [], token := none,
    err := none }

/-- `setErr`: records the first error that is not `io.EOF`. -/
def Scanner.setErr (s : Scanner) (err : String) : Scanner :=
  if s.err = none ∨ s.err = some io.EOF then { s with err := some err } else s

/-- The last part of an iteration of the loop of `Scanner.Scan`: one `Read` into the free part
`buf[end:len(buf)]` of the buffer; the error of the read, if any, is recorded.  (The reader
returns bytes or an error on every call, so the inner retry loop runs once.) -/
def Scanner.readMore (s : Scanner) : Scanner :=
  let rd := s.r.Read (s.bufLen - s.data.length)
  let s1 : Scanner := { s with data := s.data ++ rd.1, r := rd.2.2 }
  match rd.2.1 with
  | some err => s1.setErr err
  | none => s1

/-- One iteration of the loop of `Scanner.Scan`: `.inl` with the result when `Scan` returns,
`.inr` with the scanner when the loop goes round again.  The iteration first tries to split a
token off the buffered data, then stops if an error is recorded, then grows a full buffer (or
fails with `ErrTooLong` when the buffer has its maximal size), and finally reads more input.
(The guard `len(buf) > maxInt/2` cannot hold: the buffer never exceeds `maxTokenSize`.) -/
def Scanner.scanStep (s : Scanner) : (Bool × Scanner) ⊕ Scanner :=
  let split := if s.data.length > 0 ∨ s.err ≠ none then
      bufio.ScanLines s.data (decide (s.err ≠ none)) else (0, none)
  let s1 : Scanner := { s with data := s.data.drop split.1, token := split.2 }
  if split.2 ≠ none then .inl (true, s1)
  else if s1.err ≠ none then .inl (false, { s1 with data := [] })
  else if s1.data.length = s1.bufLen then
    if s1.bufLen ≥ s1.maxTokenSize then .inl (false, s1.setErr bufio.ErrTooLong)
    else
      let newSize := if s1.bufLen * 2 = 0 then bufio.startBufSize else s1.bufLen * 2
      Sum.inr (Scanner.readMore { s1 with bufLen := min newSize s1.maxTokenSize })
  else Sum.inr (Scanner.readMore s1)

/-- The loop of `Scanner.Scan`, bounded by `fuel` iterations: whether a token was found, and
the scanner afterwards. -/
def Scanner.scanLoop : Nat → Scanner → Bool × Scanner
  | 0, s => (false, s)
  | fuel + 1, s =>
    match s.scanStep with
    | .inl result => result
    | .inr s1 => Scanner.scanLoop fuel s1

/-- `scanner.Scan()`.  Every iteration of the loop that does not return reads at least one
byte or records the end of the input, so `len(rest) + 2` iterations are enough. -/
def Scanner.Scan (s : Scanner) : Bool × Scanner :=
  Scanner.scanLoop (s.r.rest.length + 2) s

/-- `scanner.Err()`: the first error met by the scanner that is not `io.EOF`. -/
def Scanner.Err (s : Scanner) : Option String :=
  if s.err = some io.EOF then none else s.err

/-- `scanner.Text()`: the most recent token, as a string. -/
def Scanner.Text (s : Scanner) : String :=
  match s.token with
  | some tok => String.mk tok
  | none => ""

/-! ## The command dispatcher (`cmd/todo/main.go`) -/

/-- `func getInput(r io.Reader, args ...string) (string, error)`. -/
def getInput (r : Reader) (args : List String) : Except String String :=
  if args.length > 0 then .ok (strings.Join args " ")
  else
    let scanner := (bufio.NewScanner r).Scan.2
    match scanner.Err with
    | some err => .error err
    | none =>
      let text := scanner.Text
      if text.length = 0 then .error "empty todo is not allowed"
      else .ok text

/-! ### Reference definition of `getInput`, following the specification -/

/-- The words of the specification for the positional arguments: the arguments joined with
exactly one space between consecutive arguments. -/
def joinWithSpaces : List String → String
  | [] => ""
  | [a] => a
  | a :: b :: rest => a ++ " " ++ joinWithSpaces (b :: rest)

/-- The first line of an input: the bytes before the first line ending.  A line ends with a
newline, which a carriage return may precede, or with the end of the input, which a carriage
return may precede as well. -/
def firstLine : List Char → List Char
  | [] => []
  | c :: cs =>
    if c = '\n' then []
    else if c = '\r' ∧ (cs = [] ∨ cs.head? = some '\n') then []
    else c :: firstLine cs

/-- The words of the specification for `getInput`: non-empty positional arguments are joined
with single spaces and standard input is not consulted; without arguments the result is the
first line of standard input, and an empty first line (or an empty input) is the validation
error. -/
def getInputSpec (stdin : List Char) (args : List String) : Except String String :=
  if args ≠ [] then .ok (joinWithSpaces args)
  else if firstLine stdin = [] then .error "empty todo is not allowed"
  else .ok (String.mk (firstLine stdin))

/-- An input whose first line does not fit the buffer of a `bufio.Scanner`: there are at
least `MaxScanTokenSize` bytes and none of the first `MaxScanTokenSize` is a newline. -/
def lineTooLong (stdin : List Char) : Prop :=
  bufio.MaxScanTokenSize ≤ stdin.length ∧ '\n' ∉ stdin.take bufio.MaxScanTokenSize

instance (stdin : List Char) : Decidable (lineTooLong stdin) := by
  unfold lineTooLong; infer_instance

/-- What `scanner.Err()` and `scanner.Text()` are expected to be after the first `Scan()` of
a fresh scanner over `input`. -/
def scanExpected (input : List Char) : Option String × String :=
  if lineTooLong input then (some bufio.ErrTooLong, "") else (none, String.mk (firstLine input))

/-- The invariant of the loop of `Scan` at the head of an iteration, for a scanner created
over `input`: the buffered data and the unread part make up the input, the buffer is within
its maximal size, and the only error recorded so far is the end of the input, met while the
buffer had room. -/
structure ScanInv (input : List Char) (s : Scanner) : Prop where
  content : s.data ++ s.r.rest = input
  maxTok : s.maxTokenSize = bufio.MaxScanTokenSize
  fits : s.data.length ≤ s.bufLen
  bounded : s.bufLen ≤ bufio.MaxScanTokenSize
  errs : s.err = none ∨ (s.err = some io.EOF ∧ s.r.rest = [] ∧ s.data.length < s.bufLen)

/-- The number of iterations the loop of `Scan` may still need. -/
def scanMeasure (s : Scanner) : Nat :=
  if s.err = none then s.r.rest.length + 2 else 1

/-- The values of the command-line flags after `flag.Parse()`. -/
structure Flags where
  add : Bool
  complete : Int
  del : Int
  list : Bool
deriving DecidableEq, Repr

/-- A method of the store called by `main`. -/
inductive Call where
  | Add (task : String)
  | Complete (index : Int)
  | Delete (index : Int)
  | Print
deriving DecidableEq, Repr

/-- What one run of the program leaves behind: the exit status, the lines written to standard
output and standard error, the store methods called (in order), and the collection. -/
structure Outcome where
  exitCode : Int
  stdout : List String
  stderr : List String
  calls : List Call
  db : Collection
deriving DecidableEq, Repr

/-- `func main()`: `flags` are the parsed flags, `args` is `flag.Args()`, `stdin` is
`os.Stdin`, `db` is the collection on the server and `now` the time of the run. -/
def main (flags : Flags) (args : List String) (stdin : Reader) (db : Collection)
    (env : Faults) (now : Time) : Outcome :=
  match ConnectToDB db env with
  | .error err =>
    { exitCode := 1, stdout := [], stderr := ["Failed to connect to DB: " ++ err],
      calls := [], db := db }
  | .ok todos =>
    if flags.add = true then
      match getInput stdin args with
      | .error err =>
        { exitCode := 1, stdout := [], stderr := [err], calls := [], db := db }
      | .ok task =>
        match todos.Add env now task with
        | .error err =>
          { exitCode := 1, stdout := [], stderr := ["Failed to add task: " ++ err],
            calls := [Call.Add task], db := db }
        | .ok t => { exitCode := 0, stdout := [], stderr := [], calls := [Call.Add task],
                     db := t.collection }
    else if flags.complete > 0 then
      match todos.Complete env now flags.complete with
      | .error err =>
        { exitCode := 1, stdout := [],
          stderr := ["Failed to mark task as completed: " ++ err],
          calls := [Call.Complete flags.complete], db := db }
      | .ok t => { exitCode := 0, stdout := [], stderr := [],
                   calls := [Call.Complete flags.complete], db := t.collection }
    else if flags.del > 0 then
      match todos.Delete env flags.del with
      | .error err =>
        { exitCode := 1, stdout := [], stderr := ["Failed to delete task: " ++ err],
          calls := [Call.Delete flags.del], db := db }
      | .ok t => { exitCode := 0, stdout := [], stderr := [],
                   calls := [Call.Delete flags.del], db := t.collection }
    else if flags.list = true then
      match todos.Print env with
      | .error err =>
        { exitCode := 1, stdout := [], stderr := ["Failed to list tasks: " ++ err],
          calls := [Call.Print], db := db }
      | .ok _ => { exitCode := 0, stdout := [], stderr := [], calls := [Call.Print], db := db }
    else
      { exitCode := 0, stdout := ["invalid command"], stderr := [], calls := [], db := db }

/-! ## Sample data -/

/-- A store holding the two pending tasks `buy milk` and `write report`, created 10 ms and
20 ms after the zero time. -/
def sampleTodos : Todos :=
  { collection := { docs := [
      { task := "buy milk", done := false, created_at := 10, completed_at := 0 },
      { task := "write report", done := false, created_at := 20, completed_at := 0 }] } }

/-- The sample store after `buy milk` was completed in the millisecond `30`. -/
def sampleCompleted : Todos :=
  { collection := { docs := [
      { task := "buy milk", done := true, created_at := 10, completed_at := 30 },
      { task := "write report", done := false, created_at := 20, completed_at := 0 }] } }

/-- The sample store after `write report` was deleted. -/
def sampleDeleted : Todos :=
  { collection := { docs := [
      { task := "buy milk", done := false, created_at := 10, completed_at := 0 }] } }

/-- A store in which the second and third tasks repeat the text of the first. -/
def duplicateTodos : Todos :=
  { collection := { docs := [
      { task := "buy milk", done := true, created_at := 10, completed_at := 30 },
      { task := "buy milk", done := false, created_at := 20, completed_at := 0 },
      { task := "buy milk", done := false, created_at := 25, completed_at := 0 }] } }

/-- A line of 65536 bytes `a`, without a line ending. -/
def longLine : List Char := List.replicate 65536 'a'

/-! ## Facts about the collection and the listing -/

theorem failed_complete_ne_invalid (err : String) :
    "failed to complete task: " ++ err ≠ "invalid index" := by
  intro h
  have h2 := congrArg String.data h
  simp at h2

theorem failed_delete_ne_invalid (err : String) :
    "failed to delete task: " ++ err ≠ "invalid index" := by
  intro h
  have h2 := congrArg String.data h
  simp at h2

/-- An instant read back from the store is the instant written, cut to whole milliseconds. -/
theorem toTime_bounds (t : Time) :
    DateTime.toTime (NewDateTimeFromTime t) ≤ t ∧
    t < DateTime.toTime (NewDateTimeFromTime t) + 1000000 := by
  have key : ∀ x : Int, x / 1000000 * 1000000 ≤ x ∧ x < x / 1000000 * 1000000 + 1000000 := by
    intro x
    omega
  exact key t

/-- An instant kept by the store that is not after `now` is not after `now` as stored. -/
theorem toTime_le_stored (d : DateTime) (now : Time) (h : DateTime.toTime d ≤ now) :
    DateTime.toTime d ≤ DateTime.toTime (NewDateTimeFromTime now) := by
  have key : ∀ x y : Int, x * 1000000 ≤ y → x * 1000000 ≤ y / 1000000 * 1000000 := by
    intro x y hxy
    omega
  exact key d now h

theorem GetAll_ok_iff (t : Todos) (env : Faults) (todos : List item) :
    t.GetAll env = .ok todos ↔
      env.find = none ∧ env.cursorAll = none ∧ todos = t.collection.docs.map unmarshal := by
  unfold Todos.GetAll Collection.Find Cursor.All
  cases hf : env.find <;> cases hc : env.cursorAll <;> simp [eq_comm]

theorem GetAll_noFaults (t : Todos) :
    t.GetAll noFaults = .ok (t.collection.docs.map unmarshal) := by
  rw [GetAll_ok_iff]; simp [noFaults]

/-- `Complete` with a valid index, in terms of the driver call. -/
theorem Complete_valid (t : Todos) (env : Faults) (now : Time) (N : Int) (todos : List item)
    (hget : t.GetAll env = .ok todos) (h1 : 1 ≤ N) (hN : N ≤ (todos.length : Int)) :
    t.Complete env now N =
      match env.updateOne with
      | some err => .error ("failed to complete task: " ++ err)
      | none => .ok ⟨⟨setFirst (todos.get ⟨(N - 1).toNat, by omega⟩).Task true
          (NewDateTimeFromTime now) t.collection.docs⟩⟩ := by
  unfold Todos.Complete
  rw [hget]
  have hv : ¬ (N ≤ 0 ∨ N > (todos.length : Int)) := by omega
  simp only [dif_neg hv]
  unfold Collection.UpdateOne
  cases env.updateOne <;> rfl

/-- `Delete` with a valid index, in terms of the driver call. -/
theorem Delete_valid (t : Todos) (env : Faults) (N : Int) (todos : List item)
    (hget : t.GetAll env = .ok todos) (h1 : 1 ≤ N) (hN : N ≤ (todos.length : Int)) :
    t.Delete env N =
      match env.deleteOne with
      | some err => .error ("failed to delete task: " ++ err)
      | none => .ok ⟨⟨removeFirst (todos.get ⟨(N - 1).toNat, by omega⟩).Task
          t.collection.docs⟩⟩ := by
  unfold Todos.Delete
  rw [hget]
  have hv : ¬ (N ≤ 0 ∨ N > (todos.length : Int)) := by omega
  simp only [dif_neg hv]
  unfold Collection.DeleteOne
  cases env.deleteOne <;> rfl

/-- C1. When the listing fetched inside the call has length `L`, `Complete(N)` returns the
error `invalid index` exactly when `N < 1` or `N > L`, and `Delete(N)` follows the same rule. -/
theorem Complete_Delete_invalid_index_iff (t : Todos) (env : Faults) (now : Time) (N : Int)
    (todos : List item) (hget : t.GetAll env = .ok todos) :
    (t.Complete env now N = .error "invalid index" ↔ (N < 1 ∨ N > (todos.length : Int))) ∧
    (t.Delete env N = .error "invalid index" ↔ (N < 1 ∨ N > (todos.length : Int))) := by
  constructor
  · by_cases h : N ≤ 0 ∨ N > (todos.length : Int)
    · unfold Todos.Complete
      rw [hget]
      simp only [dif_pos h, true_iff]
      omega
    · have hn : ¬ (N < 1 ∨ N > (todos.length : Int)) := by omega
      rw [Complete_valid t env now N todos hget (by omega) (by omega)]
      simp only [hn, iff_false]
      cases env.updateOne with
      | none => simp
      | some err => simpa using failed_complete_ne_invalid err
  · by_cases h : N ≤ 0 ∨ N > (todos.length : Int)
    · unfold Todos.Delete
      rw [hget]
      simp only [dif_pos h, true_iff]
      omega
    · have hn : ¬ (N < 1 ∨ N > (todos.length : Int)) := by omega
      rw [Delete_valid t env N todos hget (by omega) (by omega)]
      simp only [hn, iff_false]
      cases env.deleteOne with
      | none => simp
      | some err => simpa using failed_delete_ne_invalid err

/-- C1, at the sample store (length 2) and index 3. -/
theorem Complete_Delete_invalid_index_iff_witness :
    sampleTodos.GetAll noFaults = .ok (sampleTodos.collection.docs.map unmarshal) ∧
    ((sampleTodos.Complete noFaults 30 3 = .error "invalid index" ↔
        ((3 : Int) < 1 ∨ (3 : Int) > ((sampleTodos.collection.docs.map unmarshal).length : Int))) ∧
     (sampleTodos.Delete noFaults 3 = .error "invalid index" ↔
        ((3 : Int) < 1 ∨ (3 : Int) > ((sampleTodos.collection.docs.map unmarshal).length : Int)))) :=
  ⟨rfl, Complete_Delete_invalid_index_iff sampleTodos noFaults 30 3
    (sampleTodos.collection.docs.map unmarshal) rfl⟩

/-- The loop of `CountPending` started at `init` adds the number of pending entries. -/
theorem count_loop (todos : List item) (init : Int) :
    todos.foldl (fun total item => if !item.Done then total + 1 else total) init
      = init + ((todos.filter (fun d => !d.Done)).length : Int) := by
  induction todos generalizing init with
  | nil => simp
  | cons d ds ih =>
    simp only [List.foldl_cons, ih, List.filter_cons]
    cases d.Done with
    | false => simp; omega
    | true => simp

/-- The first document matching a filter splits the listing: the tasks before it have another
text, an update rewrites it in place and a removal takes it out; every time of the listing is
a whole number of milliseconds. -/
theorem first_match_split (task : String) (docs : List document)
    (h : ∃ x ∈ docs.map unmarshal, x.Task = task) :
    ∃ pre m post, docs.map unmarshal = pre ++ m :: post ∧ (∀ d ∈ pre, d.Task ≠ task) ∧
      m.Task = task ∧ (∃ d : DateTime, m.CreatedAt = DateTime.toTime d) ∧
      (∀ done completedAt, (setFirst task done completedAt docs).map unmarshal
        = pre ++ { m with Done := done, CompletedAt := DateTime.toTime completedAt } :: post) ∧
      (removeFirst task docs).map unmarshal = pre ++ post := by
  induction docs with
  | nil => simp at h
  | cons d ds ih =>
    by_cases hd : d.task = task
    · exact ⟨[], unmarshal d, ds.map unmarshal, by simp, by simp, hd, ⟨d.created_at, rfl⟩,
        by intro done completedAt; simp [setFirst, hd, unmarshal], by simp [removeFirst, hd]⟩
    · have h2 : ∃ x ∈ ds.map unmarshal, x.Task = task := by
        obtain ⟨x, hx, hxt⟩ := h
        rw [List.map_cons] at hx
        rcases List.mem_cons.mp hx with rfl | hx
        · exact absurd hxt hd
        · exact ⟨x, hx, hxt⟩
      obtain ⟨pre, m, post, hsplit, hpre, hm, hal, hset, hrem⟩ := ih h2
      refine ⟨unmarshal d :: pre, m, post, by simp [hsplit], ?_, hm, hal, ?_, ?_⟩
      · intro x hx
        rcases List.mem_cons.mp hx with rfl | hx
        · exact hd
        · exact hpre x hx
      · intro done completedAt
        simp [setFirst, hd, hset]
      · simp [removeFirst, hd, hrem]

/-- C3. After a successful `Delete(N)` on a listing of length `L` with `1 <= N <= L`, the
listing has length `L - 1`: it is the previous listing without the first task whose text is
the text at position `N`, the other tasks unchanged and in the same order. -/
theorem Delete_then_GetAll (t t' : Todos) (env : Faults) (N : Int)
    (todos : List item) (hget : t.GetAll env = .ok todos)
    (h1 : 1 ≤ N) (hN : N ≤ (todos.length : Int))
    (hc : t.Delete env N = .ok t') :
    ∃ pre m post, todos = pre ++ m :: post ∧
      (∀ d ∈ pre, d.Task ≠ (todos.get ⟨(N - 1).toNat, by omega⟩).Task) ∧
      m.Task = (todos.get ⟨(N - 1).toNat, by omega⟩).Task ∧
      t'.GetAll noFaults = .ok (pre ++ post) ∧
      (∀ env2 l, t'.GetAll env2 = .ok l → l = pre ++ post) ∧
      ((pre ++ post).length : Int) = (todos.length : Int) - 1 := by
  rw [Delete_valid t env N todos hget h1 hN] at hc
  obtain ⟨-, -, rfl⟩ := (GetAll_ok_iff t env todos).mp hget
  obtain ⟨pre, m, post, hsplit, hpre, hm, -, -, hrem⟩ :=
    first_match_split ((t.collection.docs.map unmarshal).get ⟨(N - 1).toNat, by omega⟩).Task
      t.collection.docs ⟨_, List.get_mem _ _ _, rfl⟩
  have hdocs : t'.collection.docs.map unmarshal = pre ++ post := by
    cases hd : env.deleteOne with
    | some err => rw [hd] at hc; simp at hc
    | none =>
      rw [hd] at hc
      simp only [Except.ok.injEq] at hc
      rw [← hc, ← hrem]
  refine ⟨pre, m, post, hsplit, hpre, hm, ?_, ?_, ?_⟩
  · rw [GetAll_noFaults, hdocs]
  · intro env2 l hl
    obtain ⟨-, -, rfl⟩ := (GetAll_ok_iff t' env2 l).mp hl
    exact hdocs
  · rw [hsplit]; simp; omega

/-- C3, at the sample store: `Delete(2)`. -/
theorem Delete_then_GetAll_witness :
    sampleTodos.GetAll noFaults = .ok (sampleTodos.collection.docs.map unmarshal) ∧
    sampleTodos.Delete noFaults 2 = .ok sampleDeleted ∧
    ∃ pre m post, sampleTodos.collection.docs.map unmarshal = pre ++ m :: post ∧
      (∀ d ∈ pre, d.Task ≠
        ((sampleTodos.collection.docs.map unmarshal).get
          ⟨((2 : Int) - 1).toNat, by decide⟩).Task) ∧
      m.Task = ((sampleTodos.collection.docs.map unmarshal).get
          ⟨((2 : Int) - 1).toNat, by decide⟩).Task ∧
      sampleDeleted.GetAll noFaults = .ok (pre ++ post) ∧
      (∀ env2 l, sampleDeleted.GetAll env2 = .ok l → l = pre ++ post) ∧
      ((pre ++ post).length : Int)
        = ((sampleTodos.collection.docs.map unmarshal).length : Int) - 1 :=
  ⟨rfl, rfl, Delete_then_GetAll sampleTodos sampleDeleted noFaults 2
    (sampleTodos.collection.docs.map unmarshal) rfl (by decide) (by decide) rfl⟩

/-- C4. `CountPending` returns the number of entries of the listing of `GetAll` that have
`done = false`, a number between `0` and the length of the listing; when `GetAll` fails,
`CountPending` returns the same error. -/
theorem CountPending_eq_count (t : Todos) (env : Faults) :
    match t.GetAll env with
    | .ok todos =>
      t.CountPending env = .ok ((todos.filter (fun d => !d.Done)).length : Int) ∧
      (0 : Int) ≤ ((todos.filter (fun d => !d.Done)).length : Int) ∧
      ((todos.filter (fun d => !d.Done)).length : Int) ≤ (todos.length : Int)
    | .error err => t.CountPending env = .error err := by
  unfold Todos.CountPending
  cases hg : t.GetAll env with
  | error e => simp
  | ok todos =>
    simp only [count_loop, zero_add, true_and]
    exact ⟨by omega, by exact_mod_cast List.length_filter_le _ _⟩

/-- C2, as the code has it. On a listing of length `L` with `1 <= N <= L`, `Complete(N)`
succeeds when the driver's update does, and the listing read afterwards has the same length;
in it the first task whose text is the text at position `N` has `done = true` and, as
`completedAt`, the call time cut to whole milliseconds: at most `now`, less than a millisecond
before it, and not before the task's `createdAt` when `now` is not.  Its text and `createdAt`
are unchanged, and so is every other task. -/
theorem Complete_then_GetAll (t : Todos) (env : Faults) (now : Time) (N : Int)
    (todos : List item) (hget : t.GetAll env = .ok todos)
    (h1 : 1 ≤ N) (hN : N ≤ (todos.length : Int)) (hupd : env.updateOne = none) :
    ∃ t' pre m m' post, t.Complete env now N = .ok t' ∧ todos = pre ++ m :: post ∧
      (∀ d ∈ pre, d.Task ≠ (todos.get ⟨(N - 1).toNat, by omega⟩).Task) ∧
      m.Task = (todos.get ⟨(N - 1).toNat, by omega⟩).Task ∧
      m'.Task = m.Task ∧ m'.CreatedAt = m.CreatedAt ∧ m'.Done = true ∧
      m'.CompletedAt = DateTime.toTime (NewDateTimeFromTime now) ∧
      m'.CompletedAt ≤ now ∧ now < m'.CompletedAt + 1000000 ∧
      (m.CreatedAt ≤ now → m'.CreatedAt ≤ m'.CompletedAt) ∧
      t'.GetAll noFaults = .ok (pre ++ m' :: post) ∧
      (∀ env2 l, t'.GetAll env2 = .ok l → l = pre ++ m' :: post) ∧
      (pre ++ m' :: post).length = todos.length := by
  have hc := Complete_valid t env now N todos hget h1 hN
  rw [hupd] at hc
  obtain ⟨-, -, rfl⟩ := (GetAll_ok_iff t env todos).mp hget
  obtain ⟨pre, m, post, hsplit, hpre, hm, ⟨d, hal⟩, hset, -⟩ :=
    first_match_split ((t.collection.docs.map unmarshal).get ⟨(N - 1).toNat, by omega⟩).Task
      t.collection.docs ⟨_, List.get_mem _ _ _, rfl⟩
  refine ⟨_, pre, m, ⟨m.Task, true, m.CreatedAt, DateTime.toTime (NewDateTimeFromTime now)⟩,
    post, hc, hsplit, hpre, hm, rfl, rfl, rfl, rfl, (toTime_bounds now).1,
    (toTime_bounds now).2, ?_, ?_, ?_, ?_⟩
  · intro hle
    show m.CreatedAt ≤ DateTime.toTime (NewDateTimeFromTime now)
    rw [hal] at hle ⊢
    exact toTime_le_stored d now hle
  · rw [GetAll_noFaults]
    exact congrArg Except.ok (hset true (NewDateTimeFromTime now))
  · intro env2 l hl
    obtain ⟨-, -, rfl⟩ := (GetAll_ok_iff _ env2 l).mp hl
    exact hset true (NewDateTimeFromTime now)
  · rw [hsplit]; simp

/-- C2 as amended, at the sample store: `Complete(1)` one nanosecond after the millisecond
`30`. -/
theorem Complete_then_GetAll_witness :
    sampleTodos.GetAll noFaults = .ok (sampleTodos.collection.docs.map unmarshal) ∧
    ∃ t' pre m m' post, sampleTodos.Complete noFaults 30000001 1 = .ok t' ∧
      sampleTodos.collection.docs.map unmarshal = pre ++ m :: post ∧
      (∀ d ∈ pre, d.Task ≠
        ((sampleTodos.collection.docs.map unmarshal).get
          ⟨((1 : Int) - 1).toNat, by decide⟩).Task) ∧
      m.Task = ((sampleTodos.collection.docs.map unmarshal).get
          ⟨((1 : Int) - 1).toNat, by decide⟩).Task ∧
      m'.Task = m.Task ∧ m'.CreatedAt = m.CreatedAt ∧ m'.Done = true ∧
      m'.CompletedAt = DateTime.toTime (NewDateTimeFromTime 30000001) ∧
      m'.CompletedAt ≤ 30000001 ∧ 30000001 < m'.CompletedAt + 1000000 ∧
      (m.CreatedAt ≤ 30000001 → m'.CreatedAt ≤ m'.CompletedAt) ∧
      t'.GetAll noFaults = .ok (pre ++ m' :: post) ∧
      (∀ env2 l, t'.GetAll env2 = .ok l → l = pre ++ m' :: post) ∧
      (pre ++ m' :: post).length = (sampleTodos.collection.docs.map unmarshal).length :=
  ⟨rfl, Complete_then_GetAll sampleTodos noFaults 30000001 1
    (sampleTodos.collection.docs.map unmarshal) rfl (by decide) (by decide) rfl⟩

/-- C2 fails on the code: `Complete(1)` on the sample store at the time `30000001` (one
nanosecond after the millisecond `30`) succeeds, and the listing read afterwards shows
`buy milk` with `completedAt = 30000000`, which is not the call time. -/
theorem Complete_completedAt_counterexample :
    (sampleTodos.Complete noFaults 30000001 1).bind (fun t' => t'.GetAll noFaults)
      = .ok [
        { Task := "buy milk", Done := true, CreatedAt := 10000000, CompletedAt := 30000000 },
        { Task := "write report", Done := false, CreatedAt := 20000000, CompletedAt := 0 }] ∧
    (30000000 : Time) ≠ 30000001 :=
  ⟨rfl, by decide⟩

/-- C8, as the code has it. `Add(text)` succeeds when the driver's insert does, and the
listing read afterwards is the previous listing followed by one new task with the given text,
`done = false`, the zero `completedAt` and, as `createdAt`, the call time cut to whole
milliseconds: at most `now` and less than a millisecond before it.  The length of the listing
and the pending count are each one more than before. -/
theorem Add_then_GetAll (t : Todos) (env : Faults) (now : Time) (text : String)
    (hins : env.insertOne = none) :
    ∃ t' todos task n, t.GetAll noFaults = .ok todos ∧ t.CountPending noFaults = .ok n ∧
      t.Add env now text = .ok t' ∧
      task.Task = text ∧ task.Done = false ∧ task.CompletedAt = zeroTime ∧
      task.CreatedAt = DateTime.toTime (NewDateTimeFromTime now) ∧
      task.CreatedAt ≤ now ∧ now < task.CreatedAt + 1000000 ∧
      t'.GetAll noFaults = .ok (todos ++ [task]) ∧
      (todos ++ [task]).length = todos.length + 1 ∧
      t'.CountPending noFaults = .ok (n + 1) ∧
      ∀ env2 : Faults,
        t'.GetAll env2 = (t.GetAll env2).map (fun l => l ++ [task]) ∧
        t'.CountPending env2 = (t.CountPending env2).map (fun k => k + 1) := by
  have hadd : t.Add env now text
      = .ok ⟨⟨t.collection.docs ++ [marshal ⟨text, false, now, zeroTime⟩]⟩⟩ := by
    unfold Todos.Add Collection.InsertOne
    rw [hins]
  have hnew : unmarshal (marshal ⟨text, false, now, zeroTime⟩)
      = ⟨text, false, DateTime.toTime (NewDateTimeFromTime now), zeroTime⟩ := by
    simp [unmarshal, marshal, zeroTime, NewDateTimeFromTime, DateTime.toTime]
  have hall : ∀ env2 : Faults,
      Todos.GetAll ⟨⟨t.collection.docs ++ [marshal ⟨text, false, now, zeroTime⟩]⟩⟩ env2
      = (t.GetAll env2).map (fun l => l ++
          [⟨text, false, DateTime.toTime (NewDateTimeFromTime now), zeroTime⟩]) := by
    intro env2
    unfold Todos.GetAll Collection.Find Cursor.All
    cases env2.find <;> cases env2.cursorAll <;> simp [Except.map, hnew]
  have hcount : ∀ env2 : Faults,
      Todos.CountPending ⟨⟨t.collection.docs ++ [marshal ⟨text, false, now, zeroTime⟩]⟩⟩ env2
      = (t.CountPending env2).map (fun k => k + 1) := by
    intro env2
    unfold Todos.CountPending
    rw [hall env2]
    cases t.GetAll env2 with
    | error e => simp [Except.map]
    | ok l => simp [Except.map, count_loop]
  have hg := hall noFaults
  have hk := hcount noFaults
  have hgt : t.GetAll noFaults = .ok (t.collection.docs.map unmarshal) := GetAll_noFaults t
  have hkt : t.CountPending noFaults
      = .ok (((t.collection.docs.map unmarshal).filter (fun d => !d.Done)).length : Int) := by
    unfold Todos.CountPending
    rw [hgt]
    simp only [count_loop, zero_add]
  rw [hgt] at hg
  rw [hkt] at hk
  exact ⟨_, _, ⟨text, false, DateTime.toTime (NewDateTimeFromTime now), zeroTime⟩, _, hgt, hkt,
    hadd, rfl, rfl, rfl, rfl, (toTime_bounds now).1, (toTime_bounds now).2, hg, by simp, hk,
    fun env2 => ⟨hall env2, hcount env2⟩⟩

/-- C8 as amended, at the sample store: `Add("call mum")` one nanosecond after the
millisecond `40`. -/
theorem Add_then_GetAll_witness :
    noFaults.insertOne = none ∧
    ∃ t' todos task n, sampleTodos.GetAll noFaults = .ok todos ∧
      sampleTodos.CountPending noFaults = .ok n ∧
      sampleTodos.Add noFaults 40000001 "call mum" = .ok t' ∧
      task.Task = "call mum" ∧ task.Done = false ∧ task.CompletedAt = zeroTime ∧
      task.CreatedAt = DateTime.toTime (NewDateTimeFromTime 40000001) ∧
      task.CreatedAt ≤ 40000001 ∧ 40000001 < task.CreatedAt + 1000000 ∧
      t'.GetAll noFaults = .ok (todos ++ [task]) ∧
      (todos ++ [task]).length = todos.length + 1 ∧
      t'.CountPending noFaults = .ok (n + 1) ∧
      ∀ env2 : Faults,
        t'.GetAll env2 = (sampleTodos.GetAll env2).map (fun l => l ++ [task]) ∧
        t'.CountPending env2 = (sampleTodos.CountPending env2).map (fun k => k + 1) :=
  ⟨rfl, Add_then_GetAll sampleTodos noFaults 40000001 "call mum" rfl⟩

/-- C8 fails on the code: `Add("call mum")` on the sample store at the time `40000001` (one
nanosecond after the millisecond `40`) succeeds, and the listing read afterwards shows the new
task with `createdAt = 40000000`, which is earlier than the call time. -/
theorem Add_createdAt_counterexample :
    (sampleTodos.Add noFaults 40000001 "call mum").bind (fun t' => t'.GetAll noFaults)
      = .ok [
        { Task := "buy milk", Done := false, CreatedAt := 10000000, CompletedAt := 0 },
        { Task := "write report", Done := false, CreatedAt := 20000000, CompletedAt := 0 },
        { Task := "call mum", Done := false, CreatedAt := 40000000, CompletedAt := 0 }] ∧
    (40000000 : Time) < 40000001 :=
  ⟨rfl, by decide⟩

theorem split_index_facts (pre post : List item) (m x : item) (i : Nat)
    (hx : (pre ++ m :: post)[i]? = some x)
    (hpre : ∀ d ∈ pre, d.Task ≠ x.Task) (hm : m.Task = x.Task) :
    pre.length ≤ i ∧
    (pre.length = i ↔ ∀ j y, j < i → (pre ++ m :: post)[j]? = some y → y.Task ≠ x.Task) ∧
    (pre.length ≠ i → ∀ m', (pre ++ m' :: post)[i]? = some x ∧ (pre ++ post)[i - 1]? = some x) := by
  have hle : pre.length ≤ i := by
    by_contra hlt
    push_neg at hlt
    rw [List.getElem?_append_left hlt] at hx
    exact hpre x (List.getElem?_mem hx) rfl
  refine ⟨hle, ⟨?_, ?_⟩, ?_⟩
  · intro hk j y hj hy
    rw [List.getElem?_append_left (by omega)] at hy
    exact hpre y (List.getElem?_mem hy)
  · intro hall
    by_contra hne
    have hlt : pre.length < i := by omega
    have := hall pre.length m hlt (by rw [List.getElem?_append_right (le_refl _)]; simp)
    exact this hm
  · intro hne m'
    have hlt : pre.length < i := by omega
    rw [List.getElem?_append_right hle] at hx
    obtain ⟨k, hk⟩ : ∃ k, i - pre.length = k + 1 := ⟨i - pre.length - 1, by omega⟩
    rw [hk, List.getElem?_cons_succ] at hx
    constructor
    · rw [List.getElem?_append_right hle, hk, List.getElem?_cons_succ, hx]
    · rw [List.getElem?_append_right (by omega)]
      have : i - 1 - pre.length = k := by omega
      rw [this, hx]

/-- C10. On a listing of length `L` with `1 <= N <= L` and a driver that does not fail,
`Complete(N)` and `Delete(N)` succeed and act on the first task whose text is the text at
position `N`: the listing read after `Complete` has that task marked done in place, the
listing read after `Delete` has it removed.  That task is the one at position `N` exactly when
no earlier task has the same text; this is so for every valid index when all texts are
pairwise distinct.  Otherwise the task acted on is at an earlier position and the task at
position `N` is still in the listing as it was. -/
theorem index_resolution (t : Todos) (env : Faults) (now : Time) (N : Int)
    (todos : List item) (hget : t.GetAll env = .ok todos)
    (h1 : 1 ≤ N) (hN : N ≤ (todos.length : Int))
    (hupd : env.updateOne = none) (hdel : env.deleteOne = none) :
    ∃ pre m m' post tc td, todos = pre ++ m :: post ∧
      (∀ d ∈ pre, d.Task ≠ (todos.get ⟨(N - 1).toNat, by omega⟩).Task) ∧
      m.Task = (todos.get ⟨(N - 1).toNat, by omega⟩).Task ∧
      m'.Task = m.Task ∧ m'.CreatedAt = m.CreatedAt ∧ m'.Done = true ∧
      m'.CompletedAt = DateTime.toTime (NewDateTimeFromTime now) ∧
      t.Complete env now N = .ok tc ∧ tc.GetAll noFaults = .ok (pre ++ m' :: post) ∧
      t.Delete env N = .ok td ∧ td.GetAll noFaults = .ok (pre ++ post) ∧
      ((pre.length : Int) + 1 = N ↔
        ∀ (j : Nat) (y : item), (j : Int) + 1 < N → todos[j]? = some y →
          y.Task ≠ (todos.get ⟨(N - 1).toNat, by omega⟩).Task) ∧
      (todos.Pairwise (fun a b => a.Task ≠ b.Task) → (pre.length : Int) + 1 = N) ∧
      ((pre.length : Int) + 1 ≠ N → (pre.length : Int) + 1 < N ∧
        (pre ++ m' :: post)[(N - 1).toNat]? = some (todos.get ⟨(N - 1).toNat, by omega⟩) ∧
        (pre ++ post)[(N - 1).toNat - 1]? = some (todos.get ⟨(N - 1).toNat, by omega⟩)) := by
  have hcomp := Complete_valid t env now N todos hget h1 hN
  have hdele := Delete_valid t env N todos hget h1 hN
  rw [hupd] at hcomp
  rw [hdel] at hdele
  have hdocs : todos = t.collection.docs.map unmarshal := ((GetAll_ok_iff t env todos).mp hget).2.2
  have hi : (N - 1).toNat < todos.length := by omega
  obtain ⟨x, hxdef⟩ : ∃ x, x = todos.get ⟨(N - 1).toNat, hi⟩ := ⟨_, rfl⟩
  have hx : todos[(N - 1).toNat]? = some x := by
    rw [hxdef, List.get_eq_getElem, List.getElem?_eq_getElem]
  rw [← hxdef] at hcomp hdele ⊢
  obtain ⟨pre, m, post, hsplit, hpre, hm, -, hset, hrem⟩ :=
    first_match_split x.Task t.collection.docs ⟨x, by rw [← hdocs]; exact List.getElem?_mem hx, rfl⟩
  rw [← hdocs] at hsplit
  rw [hsplit] at hx
  obtain ⟨hle, hiff, hlater⟩ := split_index_facts pre post m x (N - 1).toNat hx hpre hm
  refine ⟨pre, m, ⟨m.Task, true, m.CreatedAt, DateTime.toTime (NewDateTimeFromTime now)⟩, post,
    _, _, hsplit, hpre, hm, rfl, rfl, rfl, rfl, hcomp, ?_, hdele, ?_, ?_, ?_, ?_⟩
  · rw [GetAll_noFaults]
    exact congrArg Except.ok (hset true (NewDateTimeFromTime now))
  · rw [GetAll_noFaults]
    exact congrArg Except.ok hrem
  · rw [hsplit]
    constructor
    · intro hk j y hj hy
      exact hiff.mp (by omega) j y (by omega) hy
    · intro hall
      have := hiff.mpr (fun j y hj hy => hall j y (by omega) hy)
      omega
  · intro hpw
    by_contra hne
    have hlt : pre.length < (N - 1).toNat := by omega
    rw [hsplit] at hpw
    have h2 := (hlater (by omega) m).1
    rw [List.getElem?_append_right hle] at h2
    obtain ⟨k, hk⟩ : ∃ k, (N - 1).toNat - pre.length = k + 1 :=
      ⟨(N - 1).toNat - pre.length - 1, by omega⟩
    rw [hk, List.getElem?_cons_succ] at h2
    have hxpost : x ∈ post := List.getElem?_mem h2
    have := (List.pairwise_cons.mp (List.pairwise_append.mp hpw).2.1).1 x hxpost
    exact this hm
  · intro hne
    exact ⟨by omega, (hlater (by omega) _).1, (hlater (by omega) m).2⟩

/-- C10, at the store with three tasks of the same text and index 2. -/
theorem index_resolution_witness :
    duplicateTodos.GetAll noFaults = .ok (duplicateTodos.collection.docs.map unmarshal) ∧
    ∃ pre m m' post tc td, duplicateTodos.collection.docs.map unmarshal = pre ++ m :: post ∧
      (∀ d ∈ pre, d.Task ≠
        ((duplicateTodos.collection.docs.map unmarshal).get
          ⟨((2 : Int) - 1).toNat, by decide⟩).Task) ∧
      m.Task = ((duplicateTodos.collection.docs.map unmarshal).get
          ⟨((2 : Int) - 1).toNat, by decide⟩).Task ∧
      m'.Task = m.Task ∧ m'.CreatedAt = m.CreatedAt ∧ m'.Done = true ∧
      m'.CompletedAt = DateTime.toTime (NewDateTimeFromTime 50000000) ∧
      duplicateTodos.Complete noFaults 50000000 2 = .ok tc ∧
      tc.GetAll noFaults = .ok (pre ++ m' :: post) ∧
      duplicateTodos.Delete noFaults 2 = .ok td ∧ td.GetAll noFaults = .ok (pre ++ post) ∧
      ((pre.length : Int) + 1 = 2 ↔
        ∀ (j : Nat) (y : item), (j : Int) + 1 < 2 →
          (duplicateTodos.collection.docs.map unmarshal)[j]? = some y →
          y.Task ≠ ((duplicateTodos.collection.docs.map unmarshal).get
            ⟨((2 : Int) - 1).toNat, by decide⟩).Task) ∧
      ((duplicateTodos.collection.docs.map unmarshal).Pairwise (fun a b => a.Task ≠ b.Task) →
        (pre.length : Int) + 1 = 2) ∧
      ((pre.length : Int) + 1 ≠ 2 → (pre.length : Int) + 1 < 2 ∧
        (pre ++ m' :: post)[((2 : Int) - 1).toNat]?
          = some ((duplicateTodos.collection.docs.map unmarshal).get
            ⟨((2 : Int) - 1).toNat, by decide⟩) ∧
        (pre ++ post)[((2 : Int) - 1).toNat - 1]?
          = some ((duplicateTodos.collection.docs.map unmarshal).get
            ⟨((2 : Int) - 1).toNat, by decide⟩)) :=
  ⟨rfl, index_resolution duplicateTodos noFaults 50000000 2
    (duplicateTodos.collection.docs.map unmarshal) rfl (by decide) (by decide) rfl rfl⟩

/-- C7, as the code has it. On a listing of length `L` with `1 <= N <= L`, `Complete(N)`
succeeds when the driver's update does and writes the call time, cut to whole milliseconds,
into the `completedAt` of the first task whose text is the text at position `N`, whatever its
`done` flag was; the `completedAt` of every other task stays as it was.  A successful `Add` or
`Delete` does not change the `completedAt` of a task that stays in the store. -/
theorem Complete_overwrites_completedAt (t : Todos) (env : Faults) (now : Time) (N : Int)
    (todos : List item) (hget : t.GetAll env = .ok todos)
    (h1 : 1 ≤ N) (hN : N ≤ (todos.length : Int)) (hupd : env.updateOne = none) :
    (∃ t' l pre m post, t.Complete env now N = .ok t' ∧ t'.GetAll noFaults = .ok l ∧
      todos = pre ++ m :: post ∧
      (∀ d ∈ pre, d.Task ≠ (todos.get ⟨(N - 1).toNat, by omega⟩).Task) ∧
      m.Task = (todos.get ⟨(N - 1).toNat, by omega⟩).Task ∧
      l.map item.CompletedAt = pre.map item.CompletedAt ++
        DateTime.toTime (NewDateTimeFromTime now) :: post.map item.CompletedAt ∧
      DateTime.toTime (NewDateTimeFromTime now) ≤ now ∧
      now < DateTime.toTime (NewDateTimeFromTime now) + 1000000) ∧
    (∀ text, env.insertOne = none → ∃ t' l, t.Add env now text = .ok t' ∧
      t'.GetAll noFaults = .ok l ∧
      l.map item.CompletedAt = todos.map item.CompletedAt ++ [zeroTime]) ∧
    (∀ M, 1 ≤ M → M ≤ (todos.length : Int) → env.deleteOne = none →
      ∃ t' l, t.Delete env M = .ok t' ∧ t'.GetAll noFaults = .ok l ∧ l.Sublist todos) := by
  have hdocs : todos = t.collection.docs.map unmarshal := ((GetAll_ok_iff t env todos).mp hget).2.2
  refine ⟨?_, ?_, ?_⟩
  · have hc := Complete_valid t env now N todos hget h1 hN
    rw [hupd] at hc
    obtain ⟨pre, m, post, hsplit, hpre, hm, -, hset, -⟩ :=
      first_match_split (todos.get ⟨(N - 1).toNat, by omega⟩).Task
        t.collection.docs ⟨_, by rw [← hdocs]; exact List.get_mem _ _ _, rfl⟩
    rw [← hdocs] at hsplit
    refine ⟨_, _, pre, m, post, hc, GetAll_noFaults _, hsplit, hpre, hm, ?_,
      (toTime_bounds now).1, (toTime_bounds now).2⟩
    rw [hset]
    simp
  · intro text hins
    refine ⟨⟨⟨t.collection.docs ++ [marshal ⟨text, false, now, zeroTime⟩]⟩⟩, _, ?_,
      GetAll_noFaults _, ?_⟩
    · unfold Todos.Add Collection.InsertOne
      rw [hins]
    · rw [hdocs]
      simp [unmarshal, marshal, zeroTime, NewDateTimeFromTime, DateTime.toTime]
  · intro M hM1 hMN hdel
    have hc := Delete_valid t env M todos hget hM1 hMN
    rw [hdel] at hc
    obtain ⟨pre, m, post, hsplit, -, -, -, -, hrem⟩ :=
      first_match_split (todos.get ⟨(M - 1).toNat, by omega⟩).Task
        t.collection.docs ⟨_, by rw [← hdocs]; exact List.get_mem _ _ _, rfl⟩
    refine ⟨_, _, hc, GetAll_noFaults _, ?_⟩
    rw [hrem, hdocs, hsplit]
    exact List.Sublist.append_left (List.sublist_cons_self m post) pre

/-- C7 as amended, at the sample store in which `buy milk` is done: `Complete(1)` at the
millisecond `50`. -/
theorem Complete_overwrites_completedAt_witness :
    sampleCompleted.GetAll noFaults = .ok (sampleCompleted.collection.docs.map unmarshal) ∧
    (∃ t' l pre m post, sampleCompleted.Complete noFaults 50000000 1 = .ok t' ∧
      t'.GetAll noFaults = .ok l ∧
      sampleCompleted.collection.docs.map unmarshal = pre ++ m :: post ∧
      (∀ d ∈ pre, d.Task ≠
        ((sampleCompleted.collection.docs.map unmarshal).get
          ⟨((1 : Int) - 1).toNat, by decide⟩).Task) ∧
      m.Task = ((sampleCompleted.collection.docs.map unmarshal).get
          ⟨((1 : Int) - 1).toNat, by decide⟩).Task ∧
      l.map item.CompletedAt = pre.map item.CompletedAt ++
        DateTime.toTime (NewDateTimeFromTime 50000000) :: post.map item.CompletedAt ∧
      DateTime.toTime (NewDateTimeFromTime 50000000) ≤ 50000000 ∧
      50000000 < DateTime.toTime (NewDateTimeFromTime 50000000) + 1000000) ∧
    (∀ text, noFaults.insertOne = none →
      ∃ t' l, sampleCompleted.Add noFaults 50000000 text = .ok t' ∧
      t'.GetAll noFaults = .ok l ∧
      l.map item.CompletedAt
        = (sampleCompleted.collection.docs.map unmarshal).map item.CompletedAt ++ [zeroTime]) ∧
    (∀ M, 1 ≤ M → M ≤ ((sampleCompleted.collection.docs.map unmarshal).length : Int) →
      noFaults.deleteOne = none →
      ∃ t' l, sampleCompleted.Delete noFaults M = .ok t' ∧ t'.GetAll noFaults = .ok l ∧
        l.Sublist (sampleCompleted.collection.docs.map unmarshal)) :=
  ⟨rfl, Complete_overwrites_completedAt sampleCompleted noFaults 50000000 1
    (sampleCompleted.collection.docs.map unmarshal) rfl (by decide) (by decide) rfl⟩

/-- C7 fails on the code: in the sample store `buy milk` is done with `completedAt` at the
millisecond `30`; `Complete(1)` at the millisecond `50` succeeds, and the listing read
afterwards shows it with `completedAt` at the millisecond `50`. -/
theorem Complete_done_task_counterexample :
    sampleCompleted.GetAll noFaults = .ok [
        { Task := "buy milk", Done := true, CreatedAt := 10000000, CompletedAt := 30000000 },
        { Task := "write report", Done := false, CreatedAt := 20000000, CompletedAt := 0 }] ∧
    (sampleCompleted.Complete noFaults 50000000 1).bind (fun t' => t'.GetAll noFaults) = .ok [
        { Task := "buy milk", Done := true, CreatedAt := 10000000, CompletedAt := 50000000 },
        { Task := "write report", Done := false, CreatedAt := 20000000, CompletedAt := 0 }] ∧
    (50000000 : Time) ≠ 30000000 :=
  ⟨rfl, rfl, by decide⟩

/-! ## Facts about `getInput` and the dispatcher -/

theorem join_foldl (sep acc : String) (rest : List String) :
    rest.foldl (fun b s => b ++ sep ++ s) acc = acc ++ (rest.map (fun s => sep ++ s)).foldr (· ++ ·) "" := by
  induction rest generalizing acc with
  | nil => simp
  | cons a as ih =>
    simp only [List.foldl_cons, List.map_cons, List.foldr_cons]
    rw [ih]
    simp [String.append_assoc]

theorem Join_eq_joinWithSpaces (args : List String) :
    strings.Join args " " = joinWithSpaces args := by
  have key : ∀ (a : String) (rest : List String),
      joinWithSpaces (a :: rest) = a ++ (rest.map (fun s => " " ++ s)).foldr (· ++ ·) "" := by
    intro a rest
    induction rest generalizing a with
    | nil => simp [joinWithSpaces]
    | cons b bs ih => simp [joinWithSpaces, ih, String.append_assoc]
  cases args with
  | nil => rfl
  | cons a rest =>
    cases rest with
    | nil => rfl
    | cons b bs =>
      rw [key]
      simp only [strings.Join]
      rw [join_foldl]

theorem takeWhile_eq_take_indexOf (data : List Char) :
    data.takeWhile (fun c => decide (c ≠ '\n')) = data.take (data.indexOf '\n') := by
  induction data with
  | nil => rfl
  | cons c cs ih =>
    by_cases hc : c = '\n'
    · subst hc; simp [List.indexOf_cons]
    · simp only [List.takeWhile_cons, hc, List.indexOf_cons, ne_eq, not_false_eq_true,
        decide_True, ↓reduceIte, ih]
      have hb : (c == '\n') = false := by simpa using hc
      rw [hb]
      simp

theorem dropCR_cons (c : Char) (tw : List Char) (h : tw ≠ []) :
    bufio.dropCR (c :: tw) = c :: bufio.dropCR tw := by
  cases tw with
  | nil => exact absurd rfl h
  | cons d ds =>
    unfold bufio.dropCR
    simp only [List.getLast?_cons_cons, List.length_cons]
    by_cases hl : (d :: ds).getLast? = some '\r'
    · simp [hl]
    · simp [hl]

theorem takeWhile_line_nil (cs : List Char) :
    cs.takeWhile (fun c => decide (c ≠ '\n')) = [] ↔ (cs = [] ∨ cs.head? = some '\n') := by
  cases cs with
  | nil => simp
  | cons d ds =>
    by_cases hd : d = '\n'
    · simp [hd]
    · simp [List.takeWhile_cons, hd]

theorem firstLine_eq (input : List Char) :
    firstLine input = bufio.dropCR (input.takeWhile (fun c => decide (c ≠ '\n'))) := by
  induction input with
  | nil => simp [firstLine, bufio.dropCR]
  | cons c cs ih =>
    unfold firstLine
    by_cases hc : c = '\n'
    · simp [hc, bufio.dropCR]
    · rw [if_neg hc]
      have htw : (c :: cs).takeWhile (fun c => decide (c ≠ '\n'))
          = c :: cs.takeWhile (fun c => decide (c ≠ '\n')) := by
        simp [List.takeWhile_cons, hc]
      rw [htw]
      by_cases hnil : cs.takeWhile (fun c => decide (c ≠ '\n')) = []
      · have hcs := (takeWhile_line_nil cs).mp hnil
        rw [hnil]
        by_cases hr : c = '\r'
        · rw [if_pos ⟨hr, hcs⟩]
          subst hr
          simp [bufio.dropCR]
        · rw [if_neg (fun h => hr h.1), ih, hnil]
          simp [bufio.dropCR, hr]
      · have hcs : ¬ (cs = [] ∨ cs.head? = some '\n') := fun h =>
          hnil ((takeWhile_line_nil cs).mpr h)
        rw [if_neg (fun h => hcs h.2), ih, dropCR_cons c _ hnil]
theorem ScanLines_token (data : List Char) (atEOF : Bool)
    (h : data ≠ [] ∧ ('\n' ∈ data ∨ atEOF = true)) :
    (bufio.ScanLines data atEOF).2
      = some (bufio.dropCR (data.takeWhile (fun c => decide (c ≠ '\n')))) := by
  obtain ⟨hne, hor⟩ := h
  have hlen : data.length ≠ 0 := by
    intro h0; exact hne (List.length_eq_zero.mp h0)
  unfold bufio.ScanLines
  rw [if_neg (fun h => hlen h.2)]
  simp only
  rw [takeWhile_eq_take_indexOf]
  by_cases hi : data.indexOf '\n' < data.length
  · rw [if_pos hi]
  · rw [if_neg hi]
    have hnot : '\n' ∉ data := fun hm => hi (List.indexOf_lt_length.mpr hm)
    have hat : atEOF = true := by
      rcases hor with h | h
      · exact absurd h hnot
      · exact h
    rw [if_pos hat, List.take_of_length_le (by omega)]

theorem ScanLines_none (data : List Char) (h : '\n' ∉ data) :
    bufio.ScanLines data false = (0, none) := by
  unfold bufio.ScanLines
  have hi : ¬ data.indexOf '\n' < data.length := fun hi => h (List.indexOf_lt_length.mp hi)
  simp [hi]

theorem scanStep_token (s : Scanner) (tok : List Char)
    (h1 : s.data.length > 0 ∨ s.err ≠ none)
    (h2 : (bufio.ScanLines s.data (decide (s.err ≠ none))).2 = some tok) :
    ∃ r, s.scanStep = .inl r ∧ r.2.err = s.err ∧ r.2.token = some tok := by
  unfold Scanner.scanStep
  simp only [if_pos h1, h2]
  exact ⟨_, by simp; rfl, rfl, rfl⟩
theorem readMore_inv (input : List Char) (s : Scanner)
    (hcont : s.data ++ s.r.rest = input) (hmax : s.maxTokenSize = bufio.MaxScanTokenSize)
    (hroom : s.data.length < s.bufLen) (hbnd : s.bufLen ≤ bufio.MaxScanTokenSize)
    (herr : s.err = none) :
    ScanInv input s.readMore ∧ scanMeasure s.readMore < scanMeasure s := by
  unfold Scanner.readMore Reader.Read
  by_cases hr : s.r.rest.length = 0
  · have hnil : s.r.rest = [] := List.length_eq_zero.mp hr
    simp only [if_pos hr, Scanner.setErr, herr, true_or, if_true]
    refine ⟨⟨by simpa using hcont, hmax, by simp; omega, hbnd,
      Or.inr ⟨rfl, hnil, by simp; omega⟩⟩, ?_⟩
    simp [scanMeasure, herr]
  · simp only [if_neg hr]
    refine ⟨⟨by simpa using hcont, hmax, ?_, hbnd, Or.inl herr⟩, ?_⟩
    · simp only [List.length_append, List.length_take]
      omega
    · simp only [scanMeasure, herr, if_true, List.length_drop]
      omega

theorem takeWhile_append_of_mem (data rest : List Char) (h : '\n' ∈ data) :
    (data ++ rest).takeWhile (fun c => decide (c ≠ '\n'))
      = data.takeWhile (fun c => decide (c ≠ '\n')) := by
  induction data with
  | nil => simp at h
  | cons c cs ih =>
    by_cases hc : c = '\n'
    · simp [hc]
    · have hcs : '\n' ∈ cs := by
        rcases List.mem_cons.mp h with h | h
        · exact absurd h.symm hc
        · exact h
      simpa [List.takeWhile_cons, hc] using ih hcs

theorem ErrTooLong_ne_EOF : bufio.ErrTooLong ≠ io.EOF := by decide

theorem scanStep_spec (input : List Char) (s : Scanner) (hinv : ScanInv input s) :
    (∃ r, s.scanStep = .inl r ∧ (r.2.Err, r.2.Text) = scanExpected input) ∨
    (∃ s1, s.scanStep = .inr s1 ∧ ScanInv input s1 ∧ scanMeasure s1 < scanMeasure s) := by
  obtain ⟨hcont, hmax, hfits, hbnd, herr⟩ := hinv
  by_cases htok : s.data ≠ [] ∧ ('\n' ∈ s.data ∨ decide (s.err ≠ none) = true)
  · -- a token is split off the buffered data
    left
    have hpos : s.data.length > 0 := List.length_pos.mpr htok.1
    obtain ⟨r, hr, hrerr, hrtok⟩ :=
      scanStep_token s _ (Or.inl hpos) (ScanLines_token s.data _ htok)
    refine ⟨r, hr, ?_⟩
    have hErr : r.2.Err = none := by
      unfold Scanner.Err
      rw [hrerr]
      rcases herr with h | ⟨h, -, -⟩ <;> simp [h]
    have hline : s.data.takeWhile (fun c => decide (c ≠ '\n'))
        = input.takeWhile (fun c => decide (c ≠ '\n')) := by
      rcases htok.2 with hmem | hat
      · rw [← hcont, takeWhile_append_of_mem _ _ hmem]
      · rcases herr with h | ⟨-, hrest, -⟩
        · simp [h] at hat
        · rw [← hcont, hrest, List.append_nil]
    have hshort : ¬ lineTooLong input := by
      rintro ⟨hlen, hnl⟩
      rcases htok.2 with hmem | hat
      · apply hnl
        rw [← hcont, List.take_append_eq_append_take, List.take_of_length_le (by omega)]
        exact List.mem_append_left _ hmem
      · rcases herr with h | ⟨-, hrest, hlt⟩
        · simp [h] at hat
        · rw [← hcont, hrest, List.append_nil] at hlen
          omega
    unfold scanExpected
    rw [if_neg hshort, hErr]
    unfold Scanner.Text
    rw [hrtok, hline, firstLine_eq]
  · -- no token: the split function asks for more data
    have hsplit : (if s.data.length > 0 ∨ s.err ≠ none then
        bufio.ScanLines s.data (decide (s.err ≠ none)) else (0, none)) = (0, none) := by
      by_cases hc : s.data.length > 0 ∨ s.err ≠ none
      · rw [if_pos hc]
        by_cases hd : s.data = []
        · have he : s.err ≠ none := by
            rcases hc with h | h
            · rw [hd] at h; simp at h
            · exact h
          simp [bufio.ScanLines, hd, he]
        · have hno : ¬ ('\n' ∈ s.data ∨ decide (s.err ≠ none) = true) := fun h => htok ⟨hd, h⟩
          push_neg at hno
          have he : decide (s.err ≠ none) = false := by simpa using hno.2
          rw [he]
          exact ScanLines_none _ hno.1
      · rw [if_neg hc]
    unfold Scanner.scanStep
    simp only [hsplit, List.drop_zero, ne_eq, not_true_eq_false, if_false]
    rcases herr with hnone | ⟨heof, hrest, hlt⟩
    · -- no error so far
      have hnl : '\n' ∉ s.data := by
        intro hmem
        exact htok ⟨List.ne_nil_of_mem hmem, Or.inl hmem⟩
      simp only [hnone, not_true_eq_false, if_false]
      by_cases hfullbuf : s.data.length = s.bufLen
      · rw [if_pos hfullbuf]
        by_cases hbig : s.bufLen ≥ s.maxTokenSize
        · left
          rw [if_pos hbig]
          refine ⟨_, rfl, ?_⟩
          have hlong : lineTooLong input := by
            rw [hmax] at hbig
            have hlen : s.data.length = bufio.MaxScanTokenSize := by omega
            constructor
            · rw [← hcont, List.length_append]; omega
            · rw [← hcont, List.take_append_of_le_length (by omega),
                List.take_of_length_le (by omega)]
              exact hnl
          unfold scanExpected
          rw [if_pos hlong]
          simp [Scanner.setErr, hnone, Scanner.Err, Scanner.Text, ErrTooLong_ne_EOF]
        · right
          rw [if_neg hbig]
          refine ⟨_, rfl, ?_⟩
          have hres := readMore_inv input
            { s with token := none, err := none,
                     bufLen := min (if s.bufLen * 2 = 0 then bufio.startBufSize
                       else s.bufLen * 2) s.maxTokenSize }
            hcont hmax ?_ ?_ rfl
          · simpa [scanMeasure, hnone] using hres
          · simp only [hfullbuf]
            rw [hmax] at hbig ⊢
            split_ifs <;> simp [bufio.startBufSize, bufio.MaxScanTokenSize] at * <;> omega
          · simp only [hmax]
            exact Nat.min_le_right _ _
      · right
        rw [if_neg hfullbuf]
        refine ⟨_, rfl, ?_⟩
        have hres := readMore_inv input { s with token := none, err := none } hcont hmax
          (by simp only; omega) hbnd rfl
        simpa [scanMeasure, hnone] using hres
    · -- the end of the input was met: nothing is buffered
      left
      have hd : s.data = [] := by
        by_contra hd
        exact htok ⟨hd, Or.inr (by simp [heof])⟩
      simp only [heof]
      refine ⟨_, by simp; rfl, ?_⟩
      have hin : input = [] := by rw [← hcont, hd, hrest]; rfl
      have hshort : ¬ lineTooLong input := by
        rintro ⟨hlen, -⟩
        rw [hin] at hlen
        simp [bufio.MaxScanTokenSize] at hlen
      unfold scanExpected
      rw [if_neg hshort, hin]
      simp [Scanner.Err, Scanner.Text, firstLine]
theorem scanLoop_spec (input : List Char) (fuel : Nat) (s : Scanner)
    (hinv : ScanInv input s) (hfuel : scanMeasure s ≤ fuel) :
    ((Scanner.scanLoop fuel s).2.Err, (Scanner.scanLoop fuel s).2.Text) = scanExpected input := by
  induction fuel generalizing s with
  | zero =>
    unfold scanMeasure at hfuel
    split_ifs at hfuel <;> omega
  | succ fuel ih =>
    unfold Scanner.scanLoop
    rcases scanStep_spec input s hinv with ⟨r, hr, hres⟩ | ⟨s1, hs1, hinv1, hlt⟩
    · rw [hr]
      exact hres
    · rw [hs1]
      exact ih s1 hinv1 (by omega)

theorem NewScanner_inv (r : Reader) : ScanInv r.rest (bufio.NewScanner r) :=
  ⟨rfl, rfl, Nat.le_refl _, Nat.zero_le _, Or.inl rfl⟩

/-- The first `Scan()` of a fresh scanner: the error and the text it leaves. -/
theorem Scan_spec (r : Reader) :
    ((bufio.NewScanner r).Scan.2.Err, (bufio.NewScanner r).Scan.2.Text)
      = scanExpected r.rest := by
  unfold Scanner.Scan
  exact scanLoop_spec r.rest _ _ (NewScanner_inv r) (by simp [scanMeasure, bufio.NewScanner])

/-- `getInput` by cases: the joined arguments, the scanner's error for a line that does not
fit its buffer, the validation error for an empty first line, and the first line otherwise. -/
theorem getInput_cases (r : Reader) (args : List String) :
    getInput r args =
      if args ≠ [] then .ok (joinWithSpaces args)
      else if lineTooLong r.rest then .error bufio.ErrTooLong
      else if firstLine r.rest = [] then .error "empty todo is not allowed"
      else .ok (String.mk (firstLine r.rest)) := by
  unfold getInput
  by_cases ha : args = []
  · have h0 : ¬ args.length > 0 := by simp [ha]
    rw [if_neg h0, if_neg (not_not.mpr ha)]
    have hscan := Scan_spec r
    unfold scanExpected at hscan
    by_cases hl : lineTooLong r.rest
    · rw [if_pos hl] at hscan
      rw [if_pos hl]
      have hE := congrArg Prod.fst hscan
      simp only at hE
      simp only [hE]
    · rw [if_neg hl] at hscan
      rw [if_neg hl]
      have hE := congrArg Prod.fst hscan
      have hT := congrArg Prod.snd hscan
      simp only at hE hT
      simp only [hE, hT]
      by_cases hf : firstLine r.rest = []
      · simp [hf]
      · have : (String.mk (firstLine r.rest)).length ≠ 0 := by
          simpa [String.length] using hf
        rw [if_neg this, if_neg hf]
  · have h0 : args.length > 0 := List.length_pos.mpr ha
    rw [if_pos h0, if_pos ha, Join_eq_joinWithSpaces]
theorem firstLine_replicate_a (n : Nat) :
    firstLine (List.replicate n 'a') = List.replicate n 'a' := by
  induction n with
  | zero => rfl
  | succ n ih =>
    rw [List.replicate_succ]
    unfold firstLine
    rw [if_neg (by decide), if_neg (fun h => absurd h.1 (by decide)), ih]

theorem lineTooLong_longLine : lineTooLong longLine := by
  unfold longLine
  constructor
  · rw [List.length_replicate]
    decide
  · intro h
    have h2 := List.mem_of_mem_take h
    rw [List.mem_replicate] at h2
    exact absurd h2.2 (by decide)

theorem longLine_ne_nil : longLine ≠ [] := by
  intro h
  have h2 := congrArg List.length h
  unfold longLine at h2
  rw [List.length_replicate] at h2
  exact absurd h2 (by decide)

/-- C5, as the code has it. `getInput` returns the scanner's error `token too long` when there
are no arguments and the first line of standard input does not fit the scanner's buffer (at
least 65536 bytes, no newline among the first 65536); in every other case it returns what the
reference definition says, in whatever pieces the input arrives: the arguments joined with
single spaces, whatever standard input holds, or else the first line of standard input, or
the validation error when that line is empty. -/
theorem getInput_eq_spec_unless_tooLong (r : Reader) (args : List String) :
    getInput r args =
      if args = [] ∧ lineTooLong r.rest then .error bufio.ErrTooLong
      else getInputSpec r.rest args := by
  rw [getInput_cases]
  unfold getInputSpec
  by_cases ha : args = []
  · by_cases hl : lineTooLong r.rest
    · simp [ha, hl]
    · simp [ha, hl]
  · simp [ha]

/-- C5 fails on the code: for an input of 65536 bytes `a` and no argument the reference
definition gives that line as the task text, and `getInput` returns the scanner's error. -/
theorem getInput_long_line_counterexample :
    getInputSpec longLine [] = .ok (String.mk longLine) ∧
    getInput ⟨longLine, []⟩ [] = .error "bufio.Scanner: token too long" ∧
    getInput ⟨longLine, []⟩ [] ≠ getInputSpec longLine [] := by
  have hfirst : firstLine longLine = longLine := firstLine_replicate_a 65536
  have hspec : getInputSpec longLine [] = .ok (String.mk longLine) := by
    unfold getInputSpec
    rw [hfirst, if_neg (fun h => h rfl), if_neg longLine_ne_nil]
  have hcode : getInput ⟨longLine, []⟩ [] = .error "bufio.Scanner: token too long" := by
    rw [getInput_cases, if_neg (fun h => h rfl), if_pos lineTooLong_longLine]
    rfl
  refine ⟨hspec, hcode, ?_⟩
  rw [hspec, hcode]
  intro h
  cases h

/-- C6 fails on the code: with the flag `-add` and the single argument `""` the dispatcher
calls `Add("")`, and a task with empty text is stored. -/
theorem empty_text_reaches_storage :
    getInput ⟨[], []⟩ [""] = .ok "" ∧
    main { add := true, complete := 0, del := 0, list := false } [""] ⟨[], []⟩ { docs := [] }
        noFaults 5
      = { exitCode := 0, stdout := [], stderr := [], calls := [Call.Add ""],
          db := { docs := [{ task := "", done := false, created_at := 0, completed_at := 0 }] } } :=
  ⟨rfl, rfl⟩

end Stmta
